import Mathlib

/-!
Verification development for the NetSuite n8n node (RESTlet and SuiteQL driver).

The embedding models the execute method of the NetSuite node class: OAuth 1.0a
request signing, the cursor based SuiteQL pagination loop, the offset based
RESTlet pagination loop, the record CRUD dispatcher and the URL construction.
HTTP traffic is modelled by a list of server responses consumed one per request;
the HMAC-SHA256 plus base64 primitive from the Node crypto library (an external
collaborator, not code of this repository) is an explicit function parameter.
Numbers are modelled as Int, strings as Lean strings compared in code point
order (which coincides with byte wise UTF-8 order; the JS sort compares UTF-16
code units, which agrees on the Basic Multilingual Plane).
-/

namespace NetSuiteModel

/-- JSON-like runtime value, as produced by parsing a RESTlet or record
response body. Mirrors the untyped any values in the TypeScript source. -/
inductive RVal where
  | null
  | bool (b : Bool)
  | num (n : Int)
  | str (s : String)
  | arr (xs : List RVal)
  | obj (fields : List (String × RVal))

/-- JS truthiness of a value, used for expressions like x or-else y. -/
def jsTruthy : RVal → Bool
  | RVal.null => false
  | RVal.bool b => b
  | RVal.num n => n != 0
  | RVal.str s => s != ""
  | RVal.arr _ => true
  | RVal.obj _ => true

/-- Insertion of a key into a JS object literal: an existing key keeps its
position and is overwritten, a new key is appended. Models the object spread
and index assignment used when building allParams in the source. -/
def objInsert {β : Type} (fs : List (String × β)) (k : String) (v : β) :
    List (String × β) :=
  if fs.any (fun p => p.1 == k) then
    fs.map (fun p => if p.1 == k then (k, v) else p)
  else fs ++ [(k, v)]

/-- Repeated objInsert, modelling a spread of one object extended by another. -/
def objExtend {β : Type} (fs adds : List (String × β)) : List (String × β) :=
  adds.foldl (fun acc kv => objInsert acc kv.1 kv.2) fs

/-- Fallback of the empty string, modelling the JS expression a or-else b on
credential strings (an absent optional credential is modelled as ""). -/
def jsOrElse (a b : String) : String := if a = "" then b else a

/-! Percent encoding. The source calls encodeURIComponent, which leaves the
ASCII alphanumerics and the marks dash, underscore, dot, exclamation, tilde,
star, single quote and parentheses unescaped and percent encodes every UTF-8
byte of every other character with uppercase hex digits. -/

/-- Characters left unescaped by encodeURIComponent. The mark characters are
listed by code point: 33 (!), 39–42 (quote, parens, star), 45 (-), 46 (.),
95 (underscore), 126 (tilde). -/
def isURIMark (c : Char) : Bool :=
  c.toNat == 33 || c.toNat == 39 || c.toNat == 40 || c.toNat == 41 ||
  c.toNat == 42 || c.toNat == 45 || c.toNat == 46 || c.toNat == 95 ||
  c.toNat == 126

/-- ASCII alphanumeric or unescaped mark. -/
def isUnescapedURIChar (c : Char) : Bool :=
  c.isAlphanum || isURIMark c

/-- UTF-8 bytes of a code point, as natural numbers below 256. -/
def utf8Bytes (n : Nat) : List Nat :=
  if n < 128 then [n]
  else if n < 2048 then [192 + n / 64, 128 + n % 64]
  else if n < 65536 then [224 + n / 4096, 128 + (n / 64) % 64, 128 + n % 64]
  else [240 + n / 262144, 128 + (n / 4096) % 64, 128 + (n / 64) % 64, 128 + n % 64]

/-- Uppercase hex digit for a value below 16. -/
def hexDigit (n : Nat) : Char :=
  if n < 10 then Char.ofNat (48 + n) else Char.ofNat (55 + n)

/-- Percent escape of one byte, e.g. 32 becomes the three characters %20. -/
def pctByte (b : Nat) : String :=
  "%" ++ String.singleton (hexDigit (b / 16)) ++ String.singleton (hexDigit (b % 16))

/-- The encodeURIComponent function of JS, restricted to valid scalar values. -/
def percentEncode (s : String) : String :=
  String.join (s.data.map fun c =>
    if isUnescapedURIChar c then String.singleton c
    else String.join ((utf8Bytes c.toNat).map pctByte))

/-- The unreserved characters of RFC 3986 section 2.3: ASCII alphanumerics and
dash (45), dot (46), underscore (95), tilde (126). Unlike encodeURIComponent,
the marks 33 (!), 39–42 (quote, parens, star) are NOT unreserved and must be
escaped by a strict RFC 3986 percent encoder. -/
def isUnreservedRfc3986 (c : Char) : Bool :=
  c.isAlphanum || c.toNat == 45 || c.toNat == 46 || c.toNat == 95 || c.toNat == 126

/-- Strict RFC 3986 percent encoding (the encoding named by the spec, and the
one OAuth mandates): every character outside the unreserved set is percent
escaped, including the five characters encodeURIComponent leaves bare. -/
def rfc3986Encode (s : String) : String :=
  String.join (s.data.map fun c =>
    if isUnreservedRfc3986 c then String.singleton c
    else String.join ((utf8Bytes c.toNat).map pctByte))

/-! OAuth 1.0a signing, as implemented inline in every branch of execute. -/

/-- The six OAuth protocol parameters, in the insertion order used by the
source object literal. -/
def oauthProtocolParams (consumerKey tokenKey timestamp nonce : String) :
    List (String × String) :=
  [("oauth_consumer_key", consumerKey),
   ("oauth_token", tokenKey),
   ("oauth_signature_method", "HMAC-SHA256"),
   ("oauth_timestamp", timestamp),
   ("oauth_nonce", nonce),
   ("oauth_version", "1.0")]

/-- The allParams object of the source: the OAuth protocol parameters spread
first, then the extra signable parameters (limit, script, deploy, or the query
parameters of a pagination link), later keys overwriting earlier ones. -/
def jsMergeParams (consumerKey tokenKey timestamp nonce : String)
    (extra : List (String × String)) : List (String × String) :=
  objExtend (oauthProtocolParams consumerKey tokenKey timestamp nonce) extra

/-- Boolean string comparison used to model the default JS array sort. -/
def strLeB (a b : String) : Bool := decide (a ≤ b)

/-- Boolean comparison of key value pairs by key. -/
def pairLeB (p q : String × String) : Bool := decide (p.1 ≤ q.1)

/-- Value of a key in a parameter object (the object invariant guarantees the
key is present whenever it is taken from the key list). -/
def valueOf (ps : List (String × String)) (k : String) : String :=
  (List.lookup k ps).getD ""

/-- Object.keys(allParams).sort().map(k => enc(k)=enc(v)).join("&") from the
source: the keys in insertion order, sorted, each key encoded and paired with
its encoded value. -/
def sortedParamString (ps : List (String × String)) : String :=
  String.intercalate "&"
    (((ps.map Prod.fst).mergeSort strLeB).map
      (fun k => percentEncode k ++ "=" ++ percentEncode (valueOf ps k)))

/-- Signature base string: METHOD, the encoded base URL and the encoded sorted
parameter string, joined by ampersands. -/
def oauthBaseString (method baseUrl : String) (ps : List (String × String)) :
    String :=
  method ++ "&" ++ percentEncode baseUrl ++ "&" ++ percentEncode (sortedParamString ps)

/-- Signing key: encoded consumer secret and encoded token secret joined by an
ampersand. -/
def oauthSigningKey (consumerSecret tokenSecret : String) : String :=
  percentEncode consumerSecret ++ "&" ++ percentEncode tokenSecret

/-- The produced oauth signature. The crypto library call
createHmac(sha256, key).update(base).digest(base64) is abstracted as the
function argument hmacSha256Base64, since the crypto module is an external
collaborator of the repository. -/
def oauthSignature (hmacSha256Base64 : String → String → String)
    (method baseUrl : String) (ps : List (String × String))
    (consumerSecret tokenSecret : String) : String :=
  hmacSha256Base64 (oauthSigningKey consumerSecret tokenSecret)
    (oauthBaseString method baseUrl ps)

/-- The Authorization header assembled by the source from the realm, the six
protocol parameters and the encoded signature. -/
def oauthAuthHeader (accountId consumerKey tokenKey timestamp nonce signature : String) :
    String :=
  "OAuth realm=\"" ++ accountId ++ "\"," ++
  "oauth_consumer_key=\"" ++ consumerKey ++ "\"," ++
  "oauth_token=\"" ++ tokenKey ++ "\"," ++
  "oauth_signature_method=\"HMAC-SHA256\"," ++
  "oauth_timestamp=\"" ++ timestamp ++ "\"," ++
  "oauth_nonce=\"" ++ nonce ++ "\"," ++
  "oauth_version=\"1.0\"," ++
  "oauth_signature=\"" ++ percentEncode signature ++ "\""

/-- Modelled from the spec: the merged parameter list itself sorted by key,
byte wise ascending, each key and value percent encoded per RFC 3986 (the
strict encoder) and joined as pairs with ampersands. This follows the wording
of the spec, to be compared with sortedParamString, which follows the source
and uses encodeURIComponent. -/
def specSortedParamString (ps : List (String × String)) : String :=
  String.intercalate "&"
    ((ps.mergeSort pairLeB).map
      (fun p => rfc3986Encode p.1 ++ "=" ++ rfc3986Encode p.2))

/-- Modelled from the spec: baseString = METHOD and percentEncode(baseUrl) and
percentEncode(sortedParams), with percent encoding per RFC 3986 and the sorted
parameters built from the words of the spec. -/
def specBaseString (method baseUrl : String) (ps : List (String × String)) :
    String :=
  method ++ "&" ++ rfc3986Encode baseUrl ++ "&" ++ rfc3986Encode (specSortedParamString ps)

/-- Modelled from the spec: key = percentEncode(consumerSecret) and
percentEncode(tokenSecret), with percent encoding per RFC 3986. -/
def specSigningKey (consumerSecret tokenSecret : String) : String :=
  rfc3986Encode consumerSecret ++ "&" ++ rfc3986Encode tokenSecret

/-- Modelled from the spec as amended: the merged parameter list sorted by key
and joined as encoded pairs, the encoding being encodeURIComponent as the
source actually uses (RFC 3986 percent encoding except that the five marks
stay bare). -/
def uriSortedParamString (ps : List (String × String)) : String :=
  String.intercalate "&"
    ((ps.mergeSort pairLeB).map
      (fun p => percentEncode p.1 ++ "=" ++ percentEncode p.2))

/-- Modelled from the spec as amended: the base string built with
encodeURIComponent encoding throughout. -/
def uriBaseString (method baseUrl : String) (ps : List (String × String)) :
    String :=
  method ++ "&" ++ percentEncode baseUrl ++ "&" ++ percentEncode (uriSortedParamString ps)

/-- Modelled from the spec as amended: the signing key made of the two secrets
encoded with encodeURIComponent. -/
def uriSigningKey (consumerSecret tokenSecret : String) : String :=
  percentEncode consumerSecret ++ "&" ++ percentEncode tokenSecret

/-! SuiteQL cursor pagination. A server interaction is modelled by the list of
responses the server would return, consumed one per issued request. -/

/-- One entry of the links array of a SuiteQL response. -/
structure SuiteQLLink where
  rel : String
  href : String
  deriving DecidableEq, Repr

/-- A SuiteQL response: items may be absent, hasMore is a flag, links may be
absent, and extra stands for all remaining fields, carried through by the
object spread in the final push. -/
structure SuiteQLResponse (α ε : Type) where
  items : Option (List α)
  hasMore : Bool
  links : Option (List SuiteQLLink)
  extra : ε
  deriving DecidableEq, Repr

variable {α ε : Type}

/-- Items of a response, or the empty list when absent: response.items with an
or-else [] on the first request, and the concat guarded by truthiness of
response.items on later requests (an empty array concatenates to nothing, so
both guards collapse to the same function). -/
def itemsOf (r : SuiteQLResponse α ε) : List α := r.items.getD []

/-- The href of the first link with rel equal to next, if the links field is
present and holds one. -/
def nextLinkHref (r : SuiteQLResponse α ε) : Option String :=
  ((r.links.getD []).find? (fun l => l.rel == "next")).map SuiteQLLink.href

/-- Whether the loop issues another request from this response: the while
condition response.hasMore and response.links, combined with the break taken
when no next link is found. Absent links and links without a next entry both
stop the loop. -/
def contPage (r : SuiteQLResponse α ε) : Bool :=
  r.hasMore && (nextLinkHref r).isSome

/-- The while loop of the SuiteQL returnAll branch. The state is the current
response and the accumulated items; the remaining server responses are consumed
one per request. Returns the final response, the accumulator and the number of
requests issued inside the loop; none models a request issued after the
provided responses were exhausted. -/
def suiteqlLoop (r : SuiteQLResponse α ε) (acc : List α) :
    List (SuiteQLResponse α ε) → Option (SuiteQLResponse α ε × List α × Nat)
  | [] => if contPage r then none else some (r, acc, 0)
  | r2 :: rs =>
    if contPage r then
      (suiteqlLoop r2 (acc ++ itemsOf r2) rs).map
        (fun out => (out.1, out.2.1, out.2.2 + 1))
    else some (r, acc, 0)

/-- The record pushed for a SuiteQL item: the fields of the final response with
items replaced, count set and hasMore overwritten. -/
structure SuiteQLOutput (α ε : Type) where
  extra : ε
  items : List α
  count : Nat
  hasMore : Bool
  deriving DecidableEq, Repr

/-- The SuiteQL branch of execute: issue the initial request, loop while
returnAll is set and the response reports more pages, then push the final
response spread with items set to the accumulator, count to its length and
hasMore to false. The second component counts the issued requests. -/
def suiteqlExecute (returnAll : Bool) :
    List (SuiteQLResponse α ε) → Option (SuiteQLOutput α ε × Nat)
  | [] => none
  | p0 :: rest =>
    let looped :=
      if returnAll && p0.hasMore then suiteqlLoop p0 (itemsOf p0) rest
      else some (p0, itemsOf p0, 0)
    looped.map (fun out => (⟨out.1.extra, out.2.1, out.2.1.length, false⟩, out.2.2 + 1))

/-! RESTlet offset pagination (permissive variant of the node). -/

/-- Ordered candidate field names scanned for a results array. -/
def candidateFields : List String := ["results", "data", "items", "records"]

/-- Value of a candidate field when it is present and holds an array: models
(field in response and Array.isArray(response[field])). -/
def candidateValue (fs : List (String × RVal)) (name : String) :
    Option (List RVal) :=
  match List.lookup name fs with
  | some (RVal.arr xs) => some xs
  | _ => none

/-- The for loop over the candidate fields with its break: the first candidate
present with an array value wins. -/
def scanCandidates (fs : List (String × RVal)) : Option (List RVal) :=
  candidateFields.findSome? (candidateValue fs)

/-- Result extraction policy of the loop body: an array response is the page,
an object response is scanned for a candidate array, anything else (and an
object with no recognizable array) yields none, the raw abort case. -/
def extractResults : RVal → Option (List RVal)
  | RVal.arr xs => some xs
  | RVal.obj fs => scanCandidates fs
  | v => (fun _ => none) v

/-- Initial currentStart: parsedBody[startIndexField] with an or-else 0. A
numeric field is used as is (zero stays zero through the or-else); absent or
falsy fields give zero. Truthy non numeric start values, which JS would carry
into string concatenation, lie outside the model and no claim exercises them. -/
def startOrZero (body : List (String × RVal)) (startField : String) : Int :=
  match List.lookup startField body with
  | some (RVal.num n) => n
  | _ => 0

/-- The body of one page request: the parsed body with the start and end index
fields overwritten. Requests are abstracted by the response list, so this
definition records the construction without feeding the loop. -/
def paginatedBody (body : List (String × RVal)) (startField endField : String)
    (curStart pageSize : Int) : List (String × RVal) :=
  objExtend body
    [(startField, RVal.num curStart), (endField, RVal.num (curStart + pageSize))]

/-- Outcome of the RESTlet pagination while loop: the raw response pushed on an
unrecognized shape abort (if any), the accumulated results, the final value of
currentStart and the number of requests issued. -/
structure RestletRun where
  abortedRaw : Option RVal
  allResults : List RVal
  finalStart : Int
  calls : Nat

/-- The while loop of the RESTlet returnAll branch. Each iteration consumes one
server response; an unrecognized shape aborts with the raw response recorded; a
recognized empty page stops without advancing; a recognized short page
accumulates, advances currentStart and stops; otherwise the loop accumulates,
advances and continues. none models a request issued after the provided
responses were exhausted. -/
def restletLoop (pageSize : Int) (curStart : Int) (acc : List RVal) :
    List RVal → Option RestletRun
  | [] => none
  | resp :: rest =>
    match extractResults resp with
    | none => some ⟨some resp, acc, curStart, 1⟩
    | some results =>
      if results.length = 0 then some ⟨none, acc, curStart, 1⟩
      else if (results.length : Int) < pageSize then
        some ⟨none, acc ++ results, curStart + pageSize, 1⟩
      else
        (restletLoop pageSize (curStart + pageSize) (acc ++ results) rest).map
          (fun run => ⟨run.abortedRaw, run.allResults, run.finalStart, run.calls + 1⟩)

/-- The aggregated record pushed after the loop: the combined results under the
configured output field name together with their total. -/
def restletAggregate (outputField : String) (results : List RVal) : RVal :=
  RVal.obj [(outputField, RVal.arr results), ("total", RVal.num results.length)]

/-- The RESTlet returnAll branch of execute: run the loop from the initial
start index, then emit the raw response of an abort (pushed inside the loop)
followed by the aggregate, the latter only when at least one result was
accumulated. Returns the pushed records in order and the request count. -/
def restletCallAll (pageSize : Int) (startField endField outputField : String)
    (body : List (String × RVal)) (pages : List RVal) :
    Option (List RVal × Nat) :=
  (restletLoop pageSize (startOrZero body startField) [] pages).map fun run =>
    (run.abortedRaw.toList ++
      (if run.allResults.length > 0 then [restletAggregate outputField run.allResults]
       else []),
     run.calls)

/-! Record CRUD dispatcher. -/

/-- Transport level response of one record request: an optional parsed body and
an optional Location header. -/
structure HttpResponse where
  body : Option RVal
  location : Option String

/-- Operations that target a specific record and therefore require an ID. -/
def idRequiringOps : List String := ["get", "update", "patch", "post", "transform"]

/-- Fixed mapping from operation to HTTP method. -/
def recordMethodMap (op : String) : Option String :=
  List.lookup op
    [("get", "GET"), ("create", "POST"), ("update", "PUT"),
     ("patch", "PATCH"), ("post", "POST"), ("transform", "POST")]

/-- URL path composition for a record operation: base path plus record type,
plus the record ID for ID targeting operations when one is given, plus the
transform suffix for the transform operation. -/
def recordUrl (companyUrl recordType recordId targetRecordType op : String) :
    String :=
  let u1 := "https://" ++ companyUrl ++ "/services/rest/record/v1/" ++ recordType
  let u2 := if idRequiringOps.contains op && recordId != "" then u1 ++ "/" ++ recordId else u1
  if op == "transform" then u2 ++ "/!transform/" ++ targetRecordType else u2

/-- Trailing path segment of a Location header value, as matched by the source
regular expression: a slash followed by one or more non slash characters at the
end of the string. -/
def trailingSegment (s : String) : Option String :=
  let parts := s.splitOn "/"
  let last := (parts.getLast?).getD ""
  if 2 ≤ parts.length ∧ last ≠ "" then some last else none

/-- Response normalization of the record branch: response.body with an or-else
of the empty object, and for create with a Location header the id and location
fields attached (the source spreads responseData, which is an object whenever
the branch fires on real traffic; non object bodies are carried unchanged). -/
def recordResponseData (op : String) (r : HttpResponse) : RVal :=
  let base :=
    match r.body with
    | some b => if jsTruthy b then b else RVal.obj []
    | none => RVal.obj []
  if op == "create" then
    match r.location with
    | some loc =>
      match trailingSegment loc with
      | some seg =>
        match base with
        | RVal.obj fs =>
          RVal.obj (objExtend fs [("id", RVal.str seg), ("location", RVal.str loc)])
        | v => v
      | none => base
    | none => base
  else base

/-- The record branch of execute: validate that an ID targeting operation has a
record ID before any request, then issue exactly one request. The second
component counts the issued requests; the validation error carries the message
of the thrown NodeOperationError. -/
def recordExecute (op recordId : String) (resp : Option HttpResponse) :
    Except String RVal × Nat :=
  if recordId = "" ∧ idRequiringOps.contains op then
    (Except.error "Record ID is required for this operation.", 0)
  else
    match resp with
    | none => (Except.error "request failed", 1)
    | some r => (Except.ok (recordResponseData op r), 1)

/-! URL construction for the three resources. -/

/-- Base host for RESTlet calls and file uploads: the optional RESTlet company
URL when present and non empty, the company URL otherwise. -/
def restletHost (restletCompanyUrl companyUrl : String) : String :=
  jsOrElse restletCompanyUrl companyUrl

/-- RESTlet call URL with script and deploy query parameters. -/
def restletUrl (restletCompanyUrl companyUrl scriptId deployId : String) : String :=
  "https://" ++ restletHost restletCompanyUrl companyUrl ++
    "/app/site/hosting/restlet.nl?script=" ++ scriptId ++ "&deploy=" ++ deployId

/-- RESTlet URL used by the file upload operation (script and deploy travel in
the qs option instead of the URL string). -/
def uploadRestletUrl (restletCompanyUrl companyUrl : String) : String :=
  "https://" ++ restletHost restletCompanyUrl companyUrl ++ "/app/site/hosting/restlet.nl"

/-- SuiteQL endpoint on the company URL. -/
def suiteqlBaseUrl (companyUrl : String) : String :=
  "https://" ++ companyUrl ++ "/services/rest/query/v1/suiteql"

/-- SuiteQL query URL: the limit query parameter is appended only when not
returning all pages. -/
def suiteqlQueryUrl (companyUrl : String) (returnAll : Bool) (limit : Int) : String :=
  if returnAll then suiteqlBaseUrl companyUrl
  else suiteqlBaseUrl companyUrl ++ "?limit=" ++ toString limit

/-- SuiteQL request body. -/
def suiteqlRequestBody (query : String) : RVal := RVal.obj [("q", RVal.str query)]

/-! Theorems. Helper lemmas come first, then one theorem per claim together
with its witness or counterexample. -/

/-- A response that does not continue stops the loop at once, whatever server
responses remain. -/
theorem suiteqlLoop_stop (r : SuiteQLResponse α ε) (acc : List α)
    (rest : List (SuiteQLResponse α ε)) (h : contPage r = false) :
    suiteqlLoop r acc rest = some (r, acc, 0) := by
  cases rest <;> simp [suiteqlLoop, h]

/-- A continuing response followed by a chain of continuing responses and a
final page with hasMore false consumes the whole chain, appending the items of
every consumed response. -/
theorem suiteqlLoop_chain (mid : List (SuiteQLResponse α ε)) :
    ∀ (r : SuiteQLResponse α ε) (acc : List α) (plast : SuiteQLResponse α ε),
      contPage r = true → (∀ x ∈ mid, contPage x = true) → plast.hasMore = false →
      suiteqlLoop r acc (mid ++ [plast]) =
        some (plast, acc ++ ((mid ++ [plast]).map itemsOf).flatten, mid.length + 1) := by
  induction mid with
  | nil =>
    intro r acc plast hr _ hlast
    have hstop : contPage plast = false := by
      simp [contPage, hlast]
    simp [suiteqlLoop, hr, hstop]
  | cons m ms ih =>
    intro r acc plast hr hmid hlast
    have hm : contPage m = true := hmid m (List.mem_cons_self m ms)
    have hms : ∀ x ∈ ms, contPage x = true := fun x hx => hmid x (List.mem_cons_of_mem m hx)
    have := ih m (acc ++ itemsOf m) plast hm hms hlast
    simp [suiteqlLoop, hr, this, List.append_assoc]

/-- Claim C1: with return all pagination enabled and a server returning a chain
of pages whose non final members continue (hasMore true with a next link) and
whose final member reports hasMore false, the single emitted result carries the
fields of the last response with items replaced by the concatenation of the
items of every page in arrival order, count equal to the length of that
concatenation, and hasMore false; one request is issued per page. -/
theorem suiteql_returnAll_collects_all_pages
    (mid : List (SuiteQLResponse α ε)) (plast : SuiteQLResponse α ε)
    (hcont : ∀ r ∈ mid, contPage r = true) (hlast : plast.hasMore = false) :
    suiteqlExecute true (mid ++ [plast]) =
      some (⟨plast.extra, ((mid ++ [plast]).map itemsOf).flatten,
             (((mid ++ [plast]).map itemsOf).flatten).length, false⟩,
            mid.length + 1) := by
  cases mid with
  | nil =>
    simp [suiteqlExecute, hlast]
  | cons m ms =>
    have hm : contPage m = true := hcont m (List.mem_cons_self m ms)
    have hms : ∀ x ∈ ms, contPage x = true := fun x hx => hcont x (List.mem_cons_of_mem m hx)
    have hmore : m.hasMore = true := by
      have := hm
      unfold contPage at this
      exact (Bool.and_eq_true _ _).mp this |>.1
    have hloop := suiteqlLoop_chain ms m (itemsOf m) plast hm hms hlast
    simp [suiteqlExecute, hmore, hloop]

/-- Claim C1 witness: three pages with hasMore true, true, false and items of
length 2, 2, 1 produce a single result with five items, count five, hasMore
false, in three requests. -/
theorem suiteql_returnAll_collects_all_pages_witness :
    suiteqlExecute true
      [⟨some [1, 2], true, some [⟨"next", "u2"⟩], ()⟩,
       ⟨some [3, 4], true, some [⟨"next", "u3"⟩], ()⟩,
       (⟨some [5], false, none, ()⟩ : SuiteQLResponse Nat Unit)] =
      some (⟨(), [1, 2, 3, 4, 5], 5, false⟩, 3) := by
  have h := suiteql_returnAll_collects_all_pages
    [⟨some [1, 2], true, some [⟨"next", "u2"⟩], ()⟩,
     ⟨some [3, 4], true, some [⟨"next", "u3"⟩], ()⟩]
    (⟨some [5], false, none, ()⟩ : SuiteQLResponse Nat Unit)
    (by decide) rfl
  exact h.trans (by decide)

/-- Claim C2 counterexample: with pagination disabled and a first response
reporting hasMore true, the emitted result has hasMore false, so the server
reported value is not preserved. -/
theorem suiteql_hasMore_forced_false_cex :
    ((suiteqlExecute false
        [(⟨some [1, 2], true, none, ()⟩ : SuiteQLResponse Nat Unit)]).map
      (fun out => out.1.hasMore)) = some false ∧
    (⟨some [1, 2], true, none, ()⟩ : SuiteQLResponse Nat Unit).hasMore = true := by
  exact ⟨rfl, rfl⟩

/-- Claim C2 amended: with pagination disabled the emitted result contains only
the first page (its items, their count and its other fields), but hasMore is
always overwritten to false rather than preserving the server reported value. -/
theorem suiteql_first_page_only_hasMore_false (p0 : SuiteQLResponse α ε)
    (rest : List (SuiteQLResponse α ε)) :
    suiteqlExecute false (p0 :: rest) =
      some (⟨p0.extra, itemsOf p0, (itemsOf p0).length, false⟩, 1) := by
  simp [suiteqlExecute]

/-- Claim C8: with return all enabled, a first response reporting hasMore true
but offering no next link (absent links field or no entry with rel next)
terminates at once: the result is emitted without error and exactly one request
is issued, whatever further responses the server would have produced. -/
theorem suiteql_defensive_exit_no_next (p0 : SuiteQLResponse α ε)
    (rest : List (SuiteQLResponse α ε))
    (h1 : p0.hasMore = true) (h2 : nextLinkHref p0 = none) :
    suiteqlExecute true (p0 :: rest) =
      some (⟨p0.extra, itemsOf p0, (itemsOf p0).length, false⟩, 1) := by
  have hc : contPage p0 = false := by
    simp [contPage, h2]
  simp [suiteqlExecute, h1, suiteqlLoop_stop _ _ _ hc]

/-- Claim C8 witness: a page with hasMore true whose links hold only a self
entry exits after the single initial request. -/
theorem suiteql_defensive_exit_no_next_witness :
    suiteqlExecute true
      [(⟨some [7], true, some [⟨"self", "u1"⟩], ()⟩ : SuiteQLResponse Nat Unit),
       ⟨some [8], true, none, ()⟩] =
      some (⟨(), [7], 1, false⟩, 1) := by
  have h := suiteql_defensive_exit_no_next
    (⟨some [7], true, some [⟨"self", "u1"⟩], ()⟩ : SuiteQLResponse Nat Unit)
    [⟨some [8], true, none, ()⟩] rfl rfl
  exact h.trans (by decide)

/-- Claim C4: for a recognized page, the offset pagination loop stops at that
page exactly when the page length is below pageSize or zero (accumulating and
advancing currentStart unless the page was empty), and otherwise continues on
the remaining responses with currentStart advanced by pageSize; in particular
with pageSize three and pages of length three, three and one the run
accumulates seven results in three requests and stops after the short page. -/
theorem restlet_pagination_termination (pageSize curStart : Int) (acc : List RVal)
    (resp : RVal) (rest : List RVal) (results : List RVal)
    (h : extractResults resp = some results) :
    (((results.length : Int) < pageSize ∨ results.length = 0) →
      restletLoop pageSize curStart acc (resp :: rest) =
        some (if results.length = 0 then ⟨none, acc, curStart, 1⟩
              else ⟨none, acc ++ results, curStart + pageSize, 1⟩)) ∧
    (¬ ((results.length : Int) < pageSize ∨ results.length = 0) →
      restletLoop pageSize curStart acc (resp :: rest) =
        (restletLoop pageSize (curStart + pageSize) (acc ++ results) rest).map
          (fun run => ⟨run.abortedRaw, run.allResults, run.finalStart, run.calls + 1⟩)) ∧
    restletLoop 3 0 []
        [RVal.arr [RVal.num 1, RVal.num 2, RVal.num 3],
         RVal.arr [RVal.num 4, RVal.num 5, RVal.num 6],
         RVal.arr [RVal.num 7]] =
      some ⟨none, [RVal.num 1, RVal.num 2, RVal.num 3, RVal.num 4, RVal.num 5,
                   RVal.num 6, RVal.num 7], 9, 3⟩ := by
  refine ⟨?_, ?_, by rfl⟩
  · intro hstop
    rcases Nat.eq_zero_or_pos results.length with hz | hpos
    · simp [restletLoop, h, hz]
    · have hne : ¬ results.length = 0 := Nat.pos_iff_ne_zero.mp hpos
      have hlt : (results.length : Int) < pageSize := hstop.resolve_right hne
      simp [restletLoop, h, hne, hlt]
  · intro hcont
    push_neg at hcont
    obtain ⟨hge, hne⟩ := hcont
    have hnl : ¬ (results.length : Int) < pageSize := not_lt.mpr hge
    simp [restletLoop, h, hne, hnl]

/-- Claim C4 witness: a recognized page of length one with pageSize three stops
the loop at that page, accumulating its element and advancing currentStart. -/
theorem restlet_pagination_termination_witness :
    restletLoop 3 6 [RVal.num 0] [RVal.arr [RVal.num 7]] =
      some ⟨none, [RVal.num 0, RVal.num 7], 9, 1⟩ := by
  have h := (restlet_pagination_termination 3 6 [RVal.num 0] (RVal.arr [RVal.num 7]) []
      [RVal.num 7] rfl).1 (by decide)
  exact h.trans (by rfl)

/-- Claim C5 counterexample: a first page of the shape with an empty results
array ends the run after one request, but nothing at all is emitted: the
claimed aggregate record with an empty sequence and total zero is not pushed. -/
theorem restlet_empty_run_emits_nothing_cex :
    restletCallAll 1000 "start" "end" "results" []
        [RVal.obj [("results", RVal.arr [])]] = some ([], 1) ∧
    restletCallAll 1000 "start" "end" "results" []
        [RVal.obj [("results", RVal.arr [])]] ≠
      some ([restletAggregate "results" []], 1) := by
  refine ⟨rfl, fun hEq => ?_⟩
  have h0 : restletCallAll 1000 "start" "end" "results" []
      [RVal.obj [("results", RVal.arr [])]] = some (([] : List RVal), 1) := rfl
  rw [h0] at hEq
  injection hEq with h1
  injection h1 with h2 h3
  exact List.noConfusion h2

/-- Claim C5 amended: when the first page is recognized with an empty results
array, the run makes no further calls and the driver emits nothing for the
item (the aggregate record is pushed only when at least one result was
accumulated). -/
theorem restlet_empty_run_no_output (pageSize : Int) (sf ef out : String)
    (body : List (String × RVal)) (resp : RVal) (rest : List RVal)
    (h : extractResults resp = some []) :
    restletCallAll pageSize sf ef out body (resp :: rest) = some ([], 1) := by
  simp [restletCallAll, restletLoop, h]

/-- Claim C5 witness: the empty first page input of the claim emits nothing in
one call. -/
theorem restlet_empty_run_no_output_witness :
    restletCallAll 1000 "start" "end" "results" []
        [RVal.obj [("results", RVal.arr [])]] = some ([], 1) :=
  restlet_empty_run_no_output 1000 "start" "end" "results" []
    (RVal.obj [("results", RVal.arr [])]) [] rfl

/-- Claim C6 counterexample: with pageSize one, a full first page followed by
an unrecognized scalar response makes the run push two records, the raw
response and then the aggregate of the earlier page, so the raw response is not
the sole result of the item. -/
theorem restlet_abort_not_sole_cex :
    restletCallAll 1 "start" "end" "results" []
        [RVal.arr [RVal.num 1], RVal.str "raw"] =
      some ([RVal.str "raw", restletAggregate "results" [RVal.num 1]], 2) ∧
    ((restletCallAll 1 "start" "end" "results" []
        [RVal.arr [RVal.num 1], RVal.str "raw"]).map (fun out => out.1.length)) =
      some 2 ∧
    (2 : Nat) ≠ 1 := by
  exact ⟨rfl, rfl, by decide⟩

/-- Claim C6 amended: an unrecognized response aborts the loop at once without
an error, the raw response being recorded with no further requests, and when it
arrives as the first page the raw response is the sole emitted result; when
results were accumulated on earlier pages their aggregate is emitted after it. -/
theorem restlet_abort_immediate (pageSize curStart : Int) (acc : List RVal)
    (resp : RVal) (rest : List RVal) (sf ef out : String)
    (body : List (String × RVal))
    (h : extractResults resp = none) :
    restletLoop pageSize curStart acc (resp :: rest) =
      some ⟨some resp, acc, curStart, 1⟩ ∧
    restletCallAll pageSize sf ef out body (resp :: rest) = some ([resp], 1) := by
  constructor
  · simp [restletLoop, h]
  · simp [restletCallAll, restletLoop, h]

/-- Claim C6 witness: a scalar first response is returned as the sole result in
one call, the remaining server page never being requested. -/
theorem restlet_abort_immediate_witness :
    restletCallAll 5 "start" "end" "results" [] [RVal.str "scalar", RVal.arr []] =
      some ([RVal.str "scalar"], 1) :=
  (restlet_abort_immediate 5 0 [] (RVal.str "scalar") [RVal.arr []]
    "start" "end" "results" [] rfl).2

/-- A scanning function ignores a leading block of candidates that all yield
none. -/
theorem findSome?_append_of_none {γ δ : Type} (g : γ → Option δ)
    (pre rest : List γ) (hpre : ∀ x ∈ pre, g x = none) :
    (pre ++ rest).findSome? g = rest.findSome? g := by
  induction pre with
  | nil => rfl
  | cons p ps ih =>
    have hp : g p = none := hpre p (List.mem_cons_self p ps)
    have hps : ∀ x ∈ ps, g x = none := fun x hx => hpre x (List.mem_cons_of_mem p hx)
    simp [List.findSome?_cons, hp, ih hps]

/-- Claim C7 counterexample: in a response where the first candidate field
results is present with a non array value and data holds an array, the scan
returns the array under data, not the value of the first candidate present. -/
theorem restlet_scan_skips_non_array_cex :
    scanCandidates [("results", RVal.str "x"), ("data", RVal.arr [RVal.num 1])] =
      some [RVal.num 1] ∧
    candidateFields.find? (fun f =>
      (List.lookup f [("results", RVal.str "x"), ("data", RVal.arr [RVal.num 1])]).isSome) =
      some "results" ∧
    List.lookup "results" [("results", RVal.str "x"), ("data", RVal.arr [RVal.num 1])] =
      some (RVal.str "x") ∧
    RVal.str "x" ≠ RVal.arr [RVal.num 1] := by
  exact ⟨rfl, rfl, rfl, fun hEq => RVal.noConfusion hEq⟩

/-- Claim C7 amended: the permissive extraction scans results, data, items,
records in order and uses the first candidate that is present with an array
value; candidates that are absent or hold non array values are skipped. -/
theorem restlet_scan_first_array_candidate (fs : List (String × RVal))
    (pre post : List String) (f : String) (xs : List RVal)
    (hsplit : candidateFields = pre ++ f :: post)
    (hf : candidateValue fs f = some xs)
    (hpre : ∀ g ∈ pre, candidateValue fs g = none) :
    scanCandidates fs = some xs := by
  unfold scanCandidates
  rw [hsplit, findSome?_append_of_none _ _ _ hpre]
  simp [List.findSome?_cons, hf]

/-- Claim C7 witness: with results present as a string and data an array, the
scan skips results and uses the array under data. -/
theorem restlet_scan_first_array_candidate_witness :
    scanCandidates [("results", RVal.str "x"), ("data", RVal.arr [RVal.num 1])] =
      some [RVal.num 1] :=
  restlet_scan_first_array_candidate
    [("results", RVal.str "x"), ("data", RVal.arr [RVal.num 1])]
    ["results"] ["items", "records"] "data" [RVal.num 1]
    rfl rfl (fun g hg => by rw [List.mem_singleton] at hg; subst hg; rfl)

/-- Claim C9: every record operation that targets a specific record (get,
update, patch, post, transform) invoked with an empty record ID produces the
operational error before any request, so the count of issued HTTP calls for the
item is zero. -/
theorem record_missing_id_throws_before_request (op : String)
    (resp : Option HttpResponse) (hop : op ∈ idRequiringOps) :
    recordExecute op "" resp =
      (Except.error "Record ID is required for this operation.", 0) := by
  have hc : idRequiringOps.contains op = true := by
    simpa using hop
  simp [recordExecute, hc]
  exact fun hn => absurd hop hn

/-- Claim C9 witness: the patch operation with no record ID fails with the
validation error and zero HTTP calls. -/
theorem record_missing_id_throws_before_request_witness :
    recordExecute "patch" "" none =
      (Except.error "Record ID is required for this operation.", 0) :=
  record_missing_id_throws_before_request "patch" none (by decide)

/-- Appending to a string that extends a given head still extends that head. -/
theorem append_extend_tail (pfx s tail : String) (h : ∃ t, s = pfx ++ t) :
    ∃ t, s ++ tail = pfx ++ t := by
  obtain ⟨t, ht⟩ := h
  exact ⟨t ++ tail, by rw [ht, String.append_assoc]⟩

/-- Claim C10: RESTlet calls and file uploads address the RESTlet company URL
when that credential is non empty and fall back to the company URL otherwise,
while the SuiteQL and record resources always address the company URL. -/
theorem restlet_base_url_fallback (restletCompanyUrl companyUrl scriptId deployId
    recordType recordId targetRecordType op : String) (returnAll : Bool) (limit : Int) :
    restletUrl restletCompanyUrl companyUrl scriptId deployId =
      "https://" ++ (if restletCompanyUrl = "" then companyUrl else restletCompanyUrl) ++
        "/app/site/hosting/restlet.nl?script=" ++ scriptId ++ "&deploy=" ++ deployId ∧
    uploadRestletUrl restletCompanyUrl companyUrl =
      "https://" ++ (if restletCompanyUrl = "" then companyUrl else restletCompanyUrl) ++
        "/app/site/hosting/restlet.nl" ∧
    (∃ tail, suiteqlQueryUrl companyUrl returnAll limit =
      "https://" ++ companyUrl ++ tail) ∧
    (∃ tail, recordUrl companyUrl recordType recordId targetRecordType op =
      "https://" ++ companyUrl ++ tail) := by
  refine ⟨rfl, rfl, ?_, ?_⟩
  · cases returnAll with
    | true =>
      exact ⟨"/services/rest/query/v1/suiteql", rfl⟩
    | false =>
      refine ⟨"/services/rest/query/v1/suiteql" ++ "?limit=" ++ toString limit, ?_⟩
      simp [suiteqlQueryUrl, suiteqlBaseUrl, String.append_assoc]
  · have base : ∃ t, "https://" ++ companyUrl ++ "/services/rest/record/v1/" =
        "https://" ++ companyUrl ++ t := ⟨"/services/rest/record/v1/", rfl⟩
    simp only [recordUrl]
    split_ifs
    · exact append_extend_tail _ _ _ (append_extend_tail _ _ _
        (append_extend_tail _ _ _ (append_extend_tail _ _ _
          (append_extend_tail _ _ _ base))))
    · exact append_extend_tail _ _ _ (append_extend_tail _ _ _
        (append_extend_tail _ _ _ base))
    · exact append_extend_tail _ _ _ (append_extend_tail _ _ _
        (append_extend_tail _ _ _ base))
    · exact append_extend_tail _ _ _ base

/-- In an association list with distinct keys, membership determines lookup. -/
theorem lookup_of_mem_nodupKeys {β : Type} (ps : List (String × β))
    (h : (ps.map Prod.fst).Nodup) {k : String} {v : β} (hm : (k, v) ∈ ps) :
    List.lookup k ps = some v := by
  induction ps with
  | nil => cases hm
  | cons q rest ih =>
    obtain ⟨h1, h2⟩ := List.nodup_cons.mp h
    rcases List.mem_cons.mp hm with hq | hrest
    · cases hq
      simp [List.lookup]
    · have hk : k ≠ q.1 := by
        intro hkq
        apply h1
        exact List.mem_map.mpr ⟨(k, v), hrest, hkq⟩
      have hkb : (k == q.1) = false := by
        simpa using hk
      cases q with
      | mk q1 q2 =>
        simp only [List.lookup, hkb]
        exact ih h2 hrest

/-- String comparison is transitive. -/
theorem strLeB_trans : ∀ a b c : String,
    strLeB a b = true → strLeB b c = true → strLeB a c = true := by
  intro a b c h1 h2
  simp only [strLeB, decide_eq_true_eq] at *
  exact le_trans h1 h2

/-- String comparison is total. -/
theorem strLeB_total : ∀ a b : String, (strLeB a b || strLeB b a) = true := by
  intro a b
  rcases le_total a b with h | h <;> simp [strLeB, h]

/-- Key comparison of pairs is transitive. -/
theorem pairLeB_trans : ∀ p q r : String × String,
    pairLeB p q = true → pairLeB q r = true → pairLeB p r = true :=
  fun p q r h1 h2 => strLeB_trans p.1 q.1 r.1 h1 h2

/-- Key comparison of pairs is total. -/
theorem pairLeB_total : ∀ p q : String × String, (pairLeB p q || pairLeB q p) = true :=
  fun p q => strLeB_total p.1 q.1

/-- Sorting the merged pairs by key agrees with sorting the key list and
pairing each key with its looked up value, provided the keys are distinct. -/
theorem sortPairs_eq_sortKeys (ps : List (String × String))
    (h : (ps.map Prod.fst).Nodup) :
    ps.mergeSort pairLeB =
      ((ps.map Prod.fst).mergeSort strLeB).map (fun k => (k, valueOf ps k)) := by
  have hLperm : (ps.mergeSort pairLeB).Perm ps := List.mergeSort_perm ps pairLeB
  have hKperm : ((ps.map Prod.fst).mergeSort strLeB).Perm (ps.map Prod.fst) :=
    List.mergeSort_perm _ strLeB
  have hLsorted : List.Pairwise (fun a b => pairLeB a b = true) (ps.mergeSort pairLeB) :=
    List.sorted_mergeSort pairLeB_trans pairLeB_total ps
  have hKsorted : List.Pairwise (fun a b => strLeB a b = true)
      ((ps.map Prod.fst).mergeSort strLeB) :=
    List.sorted_mergeSort strLeB_trans strLeB_total _
  have hLfst_sorted : List.Sorted (fun a b : String => a ≤ b)
      ((ps.mergeSort pairLeB).map Prod.fst) := by
    rw [List.Sorted, List.pairwise_map]
    exact hLsorted.imp (fun hab => of_decide_eq_true hab)
  have hKsorted2 : List.Sorted (fun a b : String => a ≤ b)
      ((ps.map Prod.fst).mergeSort strLeB) :=
    hKsorted.imp (fun hab => of_decide_eq_true hab)
  have hfstperm : ((ps.mergeSort pairLeB).map Prod.fst).Perm
      ((ps.map Prod.fst).mergeSort strLeB) :=
    (hLperm.map Prod.fst).trans hKperm.symm
  have hkeys : (ps.mergeSort pairLeB).map Prod.fst = (ps.map Prod.fst).mergeSort strLeB :=
    List.eq_of_perm_of_sorted hfstperm hLfst_sorted hKsorted2
  have hpt : ∀ p ∈ ps.mergeSort pairLeB, (p.1, valueOf ps p.1) = p := by
    intro p hp
    have hmem : p ∈ ps := hLperm.mem_iff.mp hp
    have hl : List.lookup p.1 ps = some p.2 := by
      cases p with
      | mk p1 p2 => exact lookup_of_mem_nodupKeys ps h hmem
    have : valueOf ps p.1 = p.2 := by
      simp [valueOf, hl]
    cases p with
    | mk p1 p2 => simp at this; simp [this]
  have hmapid : (ps.mergeSort pairLeB).map (fun p => (p.1, valueOf ps p.1)) =
      ps.mergeSort pairLeB := by
    have := List.map_congr_left hpt
    simpa using this
  calc ps.mergeSort pairLeB
      = (ps.mergeSort pairLeB).map (fun p => (p.1, valueOf ps p.1)) := hmapid.symm
    _ = ((ps.mergeSort pairLeB).map Prod.fst).map (fun k => (k, valueOf ps k)) := by
        rw [List.map_map]
        rfl
    _ = ((ps.map Prod.fst).mergeSort strLeB).map (fun k => (k, valueOf ps k)) := by
        rw [hkeys]

/-- On parameter objects with distinct keys, the sorted parameter string built
by sorting the pairs (the amended spec words, with encodeURIComponent) equals
the one the source builds from the sorted key list. -/
theorem uriSortedParamString_eq (ps : List (String × String))
    (h : (ps.map Prod.fst).Nodup) :
    uriSortedParamString ps = sortedParamString ps := by
  unfold uriSortedParamString sortedParamString
  rw [sortPairs_eq_sortKeys ps h, List.map_map]
  rfl

/-- objInsert keeps the key list unchanged for a present key and appends an
absent key. -/
theorem objInsert_keys {β : Type} (fs : List (String × β)) (k : String) (v : β) :
    (objInsert fs k v).map Prod.fst =
      if fs.any (fun p => p.1 == k) then fs.map Prod.fst
      else fs.map Prod.fst ++ [k] := by
  unfold objInsert
  by_cases h : fs.any (fun p => p.1 == k) = true
  · rw [if_pos h, if_pos h, List.map_map]
    refine List.map_congr_left ?_
    intro p hp
    by_cases hbk : (p.1 == k) = true
    · have hpk : p.1 = k := eq_of_beq hbk
      simp [Function.comp, hbk, hpk]
    · simp [Function.comp, hbk]
  · rw [if_neg h, if_neg h]
    simp

/-- objInsert preserves distinctness of keys. -/
theorem objInsert_keys_nodup {β : Type} (fs : List (String × β)) (k : String) (v : β)
    (h : (fs.map Prod.fst).Nodup) : ((objInsert fs k v).map Prod.fst).Nodup := by
  rw [objInsert_keys]
  by_cases hany : fs.any (fun p => p.1 == k) = true
  · rw [if_pos hany]
    exact h
  · rw [if_neg hany]
    have hk : k ∉ fs.map Prod.fst := by
      intro hmem
      apply hany
      rw [List.any_eq_true]
      obtain ⟨p, hp, hfst⟩ := List.mem_map.mp hmem
      exact ⟨p, hp, by simp [hfst]⟩
    simp [List.nodup_append, h, hk]

/-- objExtend preserves distinctness of keys. -/
theorem objExtend_keys_nodup {β : Type} (adds : List (String × β)) :
    ∀ fs : List (String × β), (fs.map Prod.fst).Nodup →
      ((objExtend fs adds).map Prod.fst).Nodup := by
  induction adds with
  | nil => intro fs h; exact h
  | cons a as ih =>
    intro fs h
    exact ih (objInsert fs a.1 a.2) (objInsert_keys_nodup fs a.1 a.2 h)

/-- The six protocol parameter names are distinct, whatever their values. -/
theorem oauthProtocolParams_keys_nodup (consumerKey tokenKey timestamp nonce : String) :
    ((oauthProtocolParams consumerKey tokenKey timestamp nonce).map Prod.fst).Nodup := by
  have hkeys : (oauthProtocolParams consumerKey tokenKey timestamp nonce).map Prod.fst =
      ["oauth_consumer_key", "oauth_token", "oauth_signature_method",
       "oauth_timestamp", "oauth_nonce", "oauth_version"] := rfl
  rw [hkeys]
  decide

/-- The allParams object always has distinct keys: the six protocol parameter
names are distinct and objExtend never introduces a duplicate. -/
theorem jsMergeParams_keys_nodup (consumerKey tokenKey timestamp nonce : String)
    (extra : List (String × String)) :
    ((jsMergeParams consumerKey tokenKey timestamp nonce extra).map Prod.fst).Nodup :=
  objExtend_keys_nodup extra _
    (oauthProtocolParams_keys_nodup consumerKey tokenKey timestamp nonce)

/-- Claim C3 counterexample: with a consumer secret containing the exclamation
mark, the code encodes it with encodeURIComponent and leaves the mark bare,
while the RFC 3986 construction named by the claim escapes it as %21, so the
two signing keys already differ. Instantiating the abstract HMAC primitive
with the function returning its key exposes the divergence in the produced
signature: the claimed equality fails at this input. -/
theorem oauth_signature_rfc3986_divergence_cex :
    oauthSignature (fun key _ => key) "POST" "u"
        (jsMergeParams "ck" "tk" "1" "n" []) "a!b" "c" ≠
      (fun key _ => key : String → String → String) (specSigningKey "a!b" "c")
        (specBaseString "POST" "u" (jsMergeParams "ck" "tk" "1" "n" [])) ∧
    oauthSignature (fun key _ => key) "POST" "u"
        (jsMergeParams "ck" "tk" "1" "n" []) "a!b" "c" = "a!b&c" ∧
    specSigningKey "a!b" "c" = "a%21b&c" := by
  refine ⟨by decide, rfl, rfl⟩

/-- Claim C3 amended: for every fixed timestamp, nonce, method, base URL, extra
signable parameter set and credential set, the produced oauth signature equals
the HMAC-SHA256 base64 primitive applied to the key and base string of the
documented construction with encodeURIComponent in place of strict RFC 3986
percent encoding (the two coincide except on the marks ! quote parens star,
which encodeURIComponent leaves bare): parameters merged with the six OAuth
protocol parameters, sorted by key ascending, encoded and joined as pairs, the
base string METHOD and encoded URL and encoded pair string, and the key made of
the two encoded secrets. -/
theorem oauth_signature_uri_construction
    (hmacSha256Base64 : String → String → String)
    (method baseUrl consumerKey tokenKey timestamp nonce : String)
    (extra : List (String × String)) (consumerSecret tokenSecret : String) :
    oauthSignature hmacSha256Base64 method baseUrl
        (jsMergeParams consumerKey tokenKey timestamp nonce extra)
        consumerSecret tokenSecret =
      hmacSha256Base64 (uriSigningKey consumerSecret tokenSecret)
        (uriBaseString method baseUrl
          (jsMergeParams consumerKey tokenKey timestamp nonce extra)) := by
  unfold oauthSignature uriBaseString oauthBaseString uriSigningKey oauthSigningKey
  rw [uriSortedParamString_eq _
    (jsMergeParams_keys_nodup consumerKey tokenKey timestamp nonce extra)]

end NetSuiteModel
